import Mathlib

/-!
Verification of `zoom-transcript-fetcher/transcript_fetcher.py`.

The program text is embedded shallowly: strings are modelled as `List Char`
(mirroring Python's character-sequence semantics), every external HTTP
interaction is modelled as an explicit environment record of response
functions, and each Python function of interest is translated into a total
Lean function of the same name.
-/

set_option linter.unusedVariables false

/-- Python strings, modelled as character lists. -/
abbrev Str := List Char

/-- Character data of a Lean string literal (used to write `Str` constants). -/
def chs (s : String) : Str := s.data

/-- The characters Python's default `str.strip()` removes. -/
def wsChars : Str := [' ', '\t', '\n', '\r', '\x0b', '\x0c']

/-- Python `s.lstrip(cs)`: drop leading characters belonging to `cs`. -/
def lstripSet (cs : Str) : Str → Str
  | [] => []
  | c :: rest => if cs.contains c then lstripSet cs rest else c :: rest

/-- Python `s.rstrip(cs)`. -/
def rstripSet (cs : Str) (s : Str) : Str :=
  (lstripSet cs s.reverse).reverse

/-- Python `s.strip()` (default whitespace). -/
def strip (s : Str) : Str :=
  rstripSet wsChars (lstripSet wsChars s)

/-- Python `s.upper()` (ASCII fragment, which is all the program compares). -/
def upper (s : Str) : Str := s.map Char.toUpper

/-- Python `s.split(sep)` for a single separator character. -/
def splitOnChar (sep : Char) : Str → List Str
  | [] => [[]]
  | c :: rest =>
    if c == sep then [] :: splitOnChar sep rest
    else
      match splitOnChar sep rest with
      | h :: t => (c :: h) :: t
      | [] => [[c]]

/-- Python `'\n'.join(lines)`. -/
def joinNL : List Str → Str
  | [] => []
  | [x] => x
  | x :: rest => x ++ '\n' :: joinNL rest

/-- Locate the first occurrence of `pat` in `s` and return the text before
and after it (`none` when `pat` does not occur). -/
def findSplit (pat : Str) (s : Str) : Option (Str × Str) :=
  match s with
  | [] => if pat = [] then some ([], []) else none
  | c :: rest =>
    if pat.isPrefixOf (c :: rest) then some ([], (c :: rest).drop pat.length)
    else
      match findSplit pat rest with
      | some (pre, post) => some (c :: pre, post)
      | none => none

/-- Python `pat in s`. -/
def hasSub (pat s : Str) : Bool := (findSplit pat s).isSome

/-- Python `s.split(pat, 1)[-1]`: the text after the first occurrence of
`pat`, or `s` itself when `pat` does not occur. -/
def afterFirst (pat s : Str) : Str :=
  match findSplit pat s with
  | some r => r.2
  | none => s

/-- One parsed action item (`{'task': ..., 'assignee': ...}`). -/
structure ActionItem where
  task : Str
  assignee : Option Str
deriving DecidableEq

/-- The dict returned by `generate_meeting_summary_with_openai`. -/
structure MeetingRecord where
  title : Str
  summary_html : Str
  action_items : List ActionItem
deriving DecidableEq

/-- `line_stripped[0].isdigit() or line_stripped.startswith('-')`. -/
def startsDigitOrDash : Str → Bool
  | [] => false
  | c :: _ => c.isDigit || c == '-'

/-- Lines 193–196: `action_text.split('. ', 1)[-1]` when `'. '` occurs
anywhere in the line, else `split(') ', 1)[-1]` when `') '` occurs, else the
line unchanged. -/
def denumber (ls : Str) : Str :=
  if hasSub (chs (". ")) ls then afterFirst (chs (". ")) ls
  else if hasSub (chs (") ")) ls then afterFirst (chs (") ")) ls
  else ls

/-- Lines 192–197: remove the numbering, then `lstrip('- ').lstrip('* ').strip()`. -/
def debullet (ls : Str) : Str :=
  strip (lstripSet (chs ("* ")) (lstripSet (chs ("- ")) (denumber ls)))

/-- Lines 199–206: split off the assignee marker from the de-bulleted text. -/
def splitAssignee (a : Str) : Str × Option Str :=
  if hasSub (chs ("| ASSIGNEE:")) a || hasSub (chs ("|ASSIGNEE:")) a then
    let parts := splitOnChar '|' a
    let task := strip (parts.getD 0 [])
    let ap := strip (parts.getD 1 [])
    if (chs ("ASSIGNEE:")).isPrefixOf (upper ap) then
      (task, some (strip (ap.drop 9)))
    else (task, none)
  else (a, none)

/-- Lines 189–212: parse one stripped line of the action-items section into
an action item (`none` when the line is not a new item or the task is empty). -/
def parseAction (ls : Str) : Option ActionItem :=
  if startsDigitOrDash ls then
    let p := splitAssignee (debullet ls)
    if p.1 = [] then none else some ⟨p.1, p.2⟩
  else none

/-- The section tag held in `current_section`. -/
inductive PSection
  | title
  | summary
  | actions
deriving DecidableEq

/-- The parser's loop state. -/
structure PState where
  title : Str
  sect : Option PSection
  summary_lines : List Str
  action_items : List ActionItem
deriving DecidableEq

/-- Lines 177–212: process one line of the model completion. -/
def processLine (st : PState) (line : Str) : PState :=
  let ls := strip line
  if (chs ("TITLE:")).isPrefixOf (upper ls) then
    { st with title := strip (ls.drop 6), sect := some PSection.title }
  else if (chs ("SUMMARY:")).isPrefixOf (upper ls) then
    { st with sect := some PSection.summary }
  else if (chs ("ACTION ITEMS:")).isPrefixOf (upper ls) then
    { st with sect := some PSection.actions }
  else if st.sect = some PSection.summary ∧ ls ≠ [] then
    { st with summary_lines := st.summary_lines ++ [line] }
  else if st.sect = some PSection.actions ∧ ls ≠ [] then
    match parseAction ls with
    | some item => { st with action_items := st.action_items ++ [item] }
    | none => st
  else st

/-- The state before the loop: default title, no section, empty buffers. -/
def initState : PState :=
  ⟨chs ("Meeting Summary & Transcript"), none, [], []⟩

/-- Lines 164–221: parse the model completion `content` into the returned
record (defaults: placeholder title, the full raw text as the summary). -/
def parseModelContent (content : Str) : MeetingRecord :=
  let st := (splitOnChar '\n' content).foldl processLine initState
  { title := st.title
  , summary_html :=
      if st.summary_lines = [] then content else strip (joinNL st.summary_lines)
  , action_items := st.action_items }

/-- The environment seen by `generate_meeting_summary_with_openai`: whether
`OPENAI_API_KEY` is set and the completion endpoint's response. -/
structure OpenAIEnv where
  hasKey : Bool
  status : Nat
  content : Str
  respText : Str

/-- Lines 103–233: the whole function (network call abstracted into `env`). -/
def generate_meeting_summary_with_openai (env : OpenAIEnv) : MeetingRecord :=
  if ¬ env.hasKey then
    { title := chs ("Meeting Summary & Transcript")
    , summary_html := chs ("<p><em>OPENAI_API_KEY not set; skipping AI summary.</em></p>")
    , action_items := [] }
  else if env.status = 200 then parseModelContent env.content
  else
    { title := chs ("Meeting Summary & Transcript")
    , summary_html :=
        chs ("<p><em>OpenAI summary request failed: ") ++ (toString env.status).data
          ++ chs (" - ") ++ env.respText ++ chs ("</em></p>")
    , action_items := [] }

/-- The environment of `find_valid_parent_pages`: the space's search endpoint
(`search n` answers the listing request with `limit = n`; `none` is a non-200
response), per-candidate create permission, the server-assigned id of the
created test page, and the outcome of a delete request. -/
structure ProbeEnv where
  search : Nat → Option (List Str)
  canCreate : Str → Bool
  createdId : Str → Str
  deleteOk : Str → Bool

/-- Observable outcome of the probe: the returned parent id, the candidates a
test-page create was attempted under (in order), and the delete requests. -/
structure ProbeOutcome where
  found : Option Str
  createAttempts : List Str
  deleteCalls : List Str
deriving DecidableEq

/-- Lines 271–304: for each listed page, attempt a test-page create under it;
on the first success delete the test page (response ignored) and return. -/
def probeLoop (env : ProbeEnv) : List Str → ProbeOutcome
  | [] => ⟨none, [], []⟩
  | p :: rest =>
    if env.canCreate p then ⟨some p, [p], [env.createdId p]⟩
    else
      let r := probeLoop env rest
      ⟨r.found, p :: r.createAttempts, r.deleteCalls⟩

/-- Lines 252–306: list up to 10 pages of the space (line 260: `'limit': 10`)
and probe them; a failed listing, or exhaustion, yields `none`. -/
def find_valid_parent_pages (env : ProbeEnv) : ProbeOutcome :=
  match env.search 10 with
  | none => ⟨none, [], []⟩
  | some pages => probeLoop env pages

/-- The body of a Jira issue-creation request (the fields the code fills). -/
structure IssueRequest where
  project : Str
  summary : Str
  description : Str
  issuetype : Str
  assignee : Option Str
deriving DecidableEq

/-- The environment of the Jira stage: the user-search endpoint (`none` is a
non-200 response) and the issue-creation endpoint (`some key` on success). -/
structure JiraEnv where
  userSearch : Str → Option (List Str)
  createIssue : IssueRequest → Option Str

/-- Lines 308–328: search users by name; first result's account id, else
`None` (also on a failed request or an empty result list). -/
def get_jira_user_by_name (env : JiraEnv) (name : Str) : Option Str :=
  match env.userSearch name with
  | some (u :: _) => some u
  | _ => none

/-- Lines 330–381: build the issue request (resolving the assignee when
given, leaving the issue unassigned when resolution yields nothing) and
submit it; returns the submitted request and the creation outcome. -/
def create_jira_ticket (env : JiraEnv) (summary description project_key : Str)
    (assignee_name : Option Str) : IssueRequest × Option Str :=
  let req : IssueRequest :=
    { project := project_key
    , summary := summary
    , description := description
    , issuetype := chs ("Task")
    , assignee :=
        match assignee_name with
        | some n => get_jira_user_by_name env n
        | none => none }
  (req, env.createIssue req)

/-- Line 591: `task[:97] + '...' if len(task) > 100 else task`. -/
def ticket_summary (task : Str) : Str :=
  if task.length > 100 then task.take 97 ++ chs ("...") else task

/-- Lines 594–598: the ticket description built in `main`. -/
def ticket_description (title task link : Str) : Str :=
  chs ("Action item from meeting: ") ++ title ++ chs ("\n\nTask: ") ++ task
    ++ chs ("\n\nMeeting notes: ") ++ link

/-- The request `main` submits for one action item. -/
def ticketRequest (env : JiraEnv) (project title link : Str)
    (item : ActionItem) : IssueRequest :=
  (create_jira_ticket env (ticket_summary item.task)
    (ticket_description title item.task link) project item.assignee).1

/-- Lines 585–613: the ticket-creation loop of `main`, returning the created
issue keys and the submitted requests, both in item order. -/
def jiraLoop (env : JiraEnv) (project title link : Str) :
    List ActionItem → List Str × List IssueRequest
  | [] => ([], [])
  | item :: rest =>
    let r := create_jira_ticket env (ticket_summary item.task)
      (ticket_description title item.task link) project item.assignee
    let acc := jiraLoop env project title link rest
    (match r.2 with
     | some k => k :: acc.1
     | none => acc.1,
     r.1 :: acc.2)

/-- Lines 16–21: the engineer-name → Confluence-page-id roster. -/
def ENGINEER_PAGES : List (Str × Str) :=
  [ (chs ("GUY"), chs ("491638"))
  , (chs ("EYAL"), chs ("491645"))
  , (chs ("ARVIN"), chs ("98393"))
  , (chs ("MAYA"), chs ("557203")) ]

/-- What a Confluence page read returns: storage body, version number, title. -/
structure PageData where
  body : Str
  version : Nat
  title : Str
deriving DecidableEq

/-- The environment of `update_engineer_pages`: whether `OPENAI_API_KEY` is
set, today's date string, the extraction endpoint's per-name response
(status, completion text), and the page-read endpoint (`none` is non-200). -/
structure ConfEnv where
  apiKey : Bool
  date : Str
  extract : Str → Nat × Str
  readPage : Str → Option PageData

/-- The externally visible requests `update_engineer_pages` issues, in order. -/
inductive ConfOp
  | extractCall (name : Str)
  | readOp (page_id : Str)
  | putOp (page_id : Str) (body : Str) (version : Nat) (title : Str)
deriving DecidableEq

/-- Lines 398–445: one engineer's iteration of the loop. The extraction call
always happens; a non-200 status or a completion containing `"NONE"` skips
the rest (`continue` on line 415); a failed page read skips the write; else
the new dated section is appended and the page updated at `version + 1`. -/
def processEngineer (env : ConfEnv) (meeting_title : Str) : Str × Str → List ConfOp
  | (name, page_id) =>
    let r := env.extract name
    if r.1 != 200 || hasSub (chs ("NONE")) r.2 then [ConfOp.extractCall name]
    else
      match env.readPage page_id with
      | none => [ConfOp.extractCall name, ConfOp.readOp page_id]
      | some page =>
        let new_section :=
          chs ("\n<h3>") ++ meeting_title ++ chs (" - ") ++ env.date
            ++ chs ("</h3>\n") ++ r.2 ++ chs ("\n")
        [ ConfOp.extractCall name
        , ConfOp.readOp page_id
        , ConfOp.putOp page_id (page.body ++ new_section) (page.version + 1) page.title ]

/-- Lines 383–445: the whole function; returns early when the roster is empty
or no API key is configured, else processes every engineer in roster order. -/
def update_engineer_pages (env : ConfEnv) (meeting_title : Str) : List ConfOp :=
  if ENGINEER_PAGES.isEmpty then []
  else if ¬ env.apiKey then []
  else (ENGINEER_PAGES.map (processEngineer env meeting_title)).flatten

/-- A demonstration environment: every extraction succeeds with a bullet
list and every page read returns a page at version 3. -/
def demoConfEnv : ConfEnv :=
  ⟨true, chs ("Oct 12"), fun _ => (200, chs ("<li>Did X</li>")),
    fun _ => some ⟨chs ("OLD"), 3, chs ("Guy Log")⟩⟩

/-- A demonstration environment in which every extraction answers with the
bare `"NONE"` sentinel. -/
def sentinelConfEnv : ConfEnv :=
  ⟨true, chs ("Oct 12"), fun _ => (200, chs ("NONE")),
    fun _ => some ⟨chs ("OLD"), 3, chs ("Guy Log")⟩⟩

/-- A demonstration environment in which one engineer's extraction contains
`"NONE"` only inside a longer word, alongside genuine text. -/
def mixedConfEnv : ConfEnv :=
  ⟨true, chs ("Oct 12"),
    fun n =>
      if n == chs ("MAYA") then (200, chs ("Mentioned NONEXISTENT issue alongside notes"))
      else (200, chs ("<li>Did X</li>")),
    fun _ => some ⟨chs ("OLD"), 3, chs ("Guy Log")⟩⟩

/-! ### Lemmas about the string helpers -/

theorem isPrefixOf_append_self (p t : Str) : p.isPrefixOf (p ++ t) = true := by
  induction p with
  | nil => simp [List.isPrefixOf]
  | cons a as ih => simp [List.isPrefixOf, ih]

theorem eq_append_drop_of_isPrefixOf (p : Str) :
    ∀ s : Str, p.isPrefixOf s = true → s = p ++ s.drop p.length := by
  induction p with
  | nil => intro s _; simp
  | cons a as ih =>
    intro s h
    cases s with
    | nil => simp [List.isPrefixOf] at h
    | cons b bs =>
      simp only [List.isPrefixOf, Bool.and_eq_true, beq_iff_eq] at h
      obtain ⟨rfl, h2⟩ := h
      simp only [List.length_cons, List.drop_succ_cons, List.cons_append]
      exact congrArg (List.cons a) (ih bs h2)

theorem findSplit_sound (pat : Str) :
    ∀ s pre post : Str, findSplit pat s = some (pre, post) → s = pre ++ pat ++ post := by
  intro s
  induction s with
  | nil =>
    intro pre post h
    by_cases hp : pat = []
    · simp [findSplit, hp] at h
      obtain ⟨h1, h2⟩ := h
      subst h1; subst h2
      simp [hp]
    · simp [findSplit, hp] at h
  | cons c rest ih =>
    intro pre post h
    simp only [findSplit] at h
    split at h
    · next hpre =>
      simp only [Option.some.injEq, Prod.mk.injEq] at h
      obtain ⟨h1, h2⟩ := h
      subst h1; subst h2
      simpa using eq_append_drop_of_isPrefixOf pat (c :: rest) hpre
    · next hpre =>
      cases hr : findSplit pat rest with
      | none => rw [hr] at h; exact absurd h (by simp)
      | some pq =>
        obtain ⟨p1, q1⟩ := pq
        rw [hr] at h
        simp only [Option.some.injEq, Prod.mk.injEq] at h
        obtain ⟨h1, h2⟩ := h
        subst h1; subst h2
        simpa [List.cons_append] using congrArg (List.cons c) (ih p1 q1 hr)

theorem findSplit_nil_isSome (s : Str) : (findSplit [] s).isSome = true := by
  cases s with
  | nil => simp [findSplit]
  | cons c rest => simp [findSplit, List.isPrefixOf]

theorem hasSub_decomp (pat u v : Str) : hasSub pat (u ++ pat ++ v) = true := by
  induction u with
  | nil =>
    cases pat with
    | nil => simpa [hasSub] using findSplit_nil_isSome v
    | cons a as =>
      simp only [List.nil_append, hasSub]
      have hpre : (a :: as).isPrefixOf ((a :: as) ++ v) = true := isPrefixOf_append_self _ _
      simp only [List.cons_append] at hpre ⊢
      simp [findSplit, hpre]
  | cons c u' ih =>
    simp only [hasSub, List.cons_append, findSplit]
    split
    · simp
    · simp only [hasSub] at ih
      cases hr : findSplit pat (u' ++ pat ++ v) with
      | none => rw [hr] at ih; simp at ih
      | some pq => simp [hr]

theorem hasSub_false_of_within (pat s t u v : Str)
    (hs : hasSub pat s = false) (hd : u ++ t ++ v = s) : hasSub pat t = false := by
  cases ht : hasSub pat t with
  | false => rfl
  | true =>
    exfalso
    unfold hasSub at ht
    cases hf : findSplit pat t with
    | none => rw [hf] at ht; simp at ht
    | some pq =>
      obtain ⟨pre, post⟩ := pq
      have heq := findSplit_sound pat t pre post hf
      have : s = (u ++ pre) ++ pat ++ (post ++ v) := by
        rw [← hd, heq]; simp [List.append_assoc]
      rw [this, hasSub_decomp] at hs
      exact absurd hs (by simp)

theorem lstripSet_decomp (cs : Str) : ∀ s : Str, ∃ u, u ++ lstripSet cs s = s := by
  intro s
  induction s with
  | nil => exact ⟨[], rfl⟩
  | cons c rest ih =>
    by_cases h : cs.contains c = true
    · obtain ⟨u, hu⟩ := ih
      refine ⟨c :: u, ?_⟩
      have hls : lstripSet cs (c :: rest) = lstripSet cs rest := by
        rw [lstripSet, if_pos h]
      rw [hls, List.cons_append, hu]
    · refine ⟨[], ?_⟩
      have hls : lstripSet cs (c :: rest) = c :: rest := by
        rw [lstripSet, if_neg h]
      rw [hls, List.nil_append]

theorem strip_decomp (s : Str) : ∃ u v, u ++ strip s ++ v = s := by
  obtain ⟨u, hu⟩ := lstripSet_decomp wsChars s
  obtain ⟨w, hw⟩ := lstripSet_decomp wsChars (lstripSet wsChars s).reverse
  refine ⟨u, w.reverse, ?_⟩
  have h2 : strip s ++ w.reverse = lstripSet wsChars s := by
    have h3 := congrArg List.reverse hw
    simpa [strip, rstripSet] using h3
  calc u ++ strip s ++ w.reverse = u ++ (strip s ++ w.reverse) := by
        rw [List.append_assoc]
    _ = u ++ lstripSet wsChars s := by rw [h2]
    _ = s := hu

theorem afterFirst_decomp (pat s : Str) : ∃ u, u ++ afterFirst pat s = s := by
  cases hf : findSplit pat s with
  | none => exact ⟨[], by rw [List.nil_append, afterFirst, hf]⟩
  | some pq =>
    obtain ⟨pre, post⟩ := pq
    refine ⟨pre ++ pat, ?_⟩
    have ha : afterFirst pat s = post := by rw [afterFirst, hf]
    rw [ha]
    exact (findSplit_sound pat s pre post hf).symm

theorem denumber_decomp (ls : Str) : ∃ u, u ++ denumber ls = ls := by
  unfold denumber
  split
  · exact afterFirst_decomp _ _
  · split
    · exact afterFirst_decomp _ _
    · exact ⟨[], rfl⟩

theorem debullet_decomp (ls : Str) : ∃ u v, u ++ debullet ls ++ v = ls := by
  obtain ⟨w, hw⟩ := denumber_decomp ls
  obtain ⟨t, ht⟩ := lstripSet_decomp (chs ("- ")) (denumber ls)
  obtain ⟨r, hr⟩ := lstripSet_decomp (chs ("* ")) (lstripSet (chs ("- ")) (denumber ls))
  obtain ⟨p, q, hpq⟩ :=
    strip_decomp (lstripSet (chs ("* ")) (lstripSet (chs ("- ")) (denumber ls)))
  refine ⟨w ++ t ++ r ++ p, q, ?_⟩
  have hd : debullet ls
      = strip (lstripSet (chs ("* ")) (lstripSet (chs ("- ")) (denumber ls))) := rfl
  rw [hd]
  calc (w ++ t ++ r ++ p)
        ++ strip (lstripSet (chs ("* ")) (lstripSet (chs ("- ")) (denumber ls))) ++ q
      = w ++ (t ++ (r ++ (p
          ++ strip (lstripSet (chs ("* ")) (lstripSet (chs ("- ")) (denumber ls))) ++ q))) := by
        simp [List.append_assoc]
    _ = w ++ (t ++ (r ++ lstripSet (chs ("* ")) (lstripSet (chs ("- ")) (denumber ls)))) := by
        rw [hpq]
    _ = w ++ (t ++ lstripSet (chs ("- ")) (denumber ls)) := by rw [hr]
    _ = w ++ denumber ls := by rw [ht]
    _ = ls := hw

theorem splitOnChar_unfold (sep : Char) (s : Str) :
    splitOnChar sep s =
      s.takeWhile (fun c => ! (c == sep)) ::
        (match s.dropWhile (fun c => ! (c == sep)) with
         | [] => []
         | _ :: rest => splitOnChar sep rest) := by
  induction s with
  | nil => rfl
  | cons c rest ih =>
    by_cases h : c == sep
    · simp [splitOnChar, List.takeWhile_cons, List.dropWhile_cons, h]
    · have hb : (c == sep) = false := by
        cases hcb : (c == sep) with
        | false => rfl
        | true => exact absurd hcb h
      rw [splitOnChar, if_neg (by simp [hb]), ih]
      simp [List.takeWhile_cons, List.dropWhile_cons, hb]

theorem dropWhile_ne_nil (p : Char → Bool) (u : Str) (c : Char) (v : Str)
    (hc : p c = false) : (u ++ c :: v).dropWhile p ≠ [] := by
  induction u with
  | nil => simp [List.dropWhile_cons, hc]
  | cons a u' ih =>
    by_cases h : p a = true
    · simpa [List.dropWhile_cons, h] using ih
    · simp [List.dropWhile_cons, h]

theorem denumber_of_dot (ls a b : Str) (h : findSplit (chs (". ")) ls = some (a, b)) :
    denumber ls = b := by
  have h1 : hasSub (chs (". ")) ls = true := by simp [hasSub, h]
  rw [denumber, if_pos h1, afterFirst, h]

theorem denumber_of_paren (ls a b : Str) (hno : hasSub (chs (". ")) ls = false)
    (h : findSplit (chs (") ")) ls = some (a, b)) : denumber ls = b := by
  have h1 : hasSub (chs (") ")) ls = true := by simp [hasSub, h]
  rw [denumber, if_neg (by simp [hno]), if_pos h1, afterFirst, h]

theorem denumber_of_none (ls : Str) (h1 : hasSub (chs (". ")) ls = false)
    (h2 : hasSub (chs (") ")) ls = false) : denumber ls = ls := by
  rw [denumber, if_neg (by simp [h1]), if_neg (by simp [h2])]

theorem splitAssignee_no_marker (a : Str)
    (h1 : hasSub (chs ("| ASSIGNEE:")) a = false)
    (h2 : hasSub (chs ("|ASSIGNEE:")) a = false) :
    splitAssignee a = (a, none) := by
  rw [splitAssignee, if_neg]
  simp [h1, h2]

theorem parseAction_no_marker (ls : Str) (hs : startsDigitOrDash ls = true)
    (h1 : hasSub (chs ("| ASSIGNEE:")) (debullet ls) = false)
    (h2 : hasSub (chs ("|ASSIGNEE:")) (debullet ls) = false)
    (hne : debullet ls ≠ []) :
    parseAction ls = some ⟨debullet ls, none⟩ := by
  rw [parseAction, if_pos (by simp [hs])]
  simp only [splitAssignee_no_marker _ h1 h2]
  rw [if_neg hne]

theorem parseAction_isSome_start (ls : Str) (h : (parseAction ls).isSome = true) :
    startsDigitOrDash ls = true := by
  cases hs : startsDigitOrDash ls with
  | true => rfl
  | false =>
    rw [parseAction, if_neg (by simp [hs])] at h
    simp at h

theorem parseAction_task_ne (ls : Str) (item : ActionItem)
    (h : parseAction ls = some item) : item.task ≠ [] := by
  rw [parseAction] at h
  split at h
  · have h2 : (if (splitAssignee (debullet ls)).1 = [] then none
        else some (⟨(splitAssignee (debullet ls)).1,
          (splitAssignee (debullet ls)).2⟩ : ActionItem)) = some item := h
    split at h2
    · exact absurd h2 (by simp)
    · next hne =>
      simp only [Option.some.injEq] at h2
      rw [← h2]
      exact hne
  · exact absurd h (by simp)

/-! ### Lemmas about the parser loop -/

theorem processLine_title (st : PState) (line : Str)
    (h : (chs ("TITLE:")).isPrefixOf (upper (strip line)) = false) :
    (processLine st line).title = st.title := by
  rw [processLine]
  rw [if_neg (by simp [h])]
  split
  · rfl
  · split
    · rfl
    · split
      · rfl
      · split
        · split <;> rfl
        · rfl

theorem processLine_no_summary (st : PState) (line : Str)
    (h : (chs ("SUMMARY:")).isPrefixOf (upper (strip line)) = false)
    (hs : st.sect ≠ some PSection.summary) :
    (processLine st line).sect ≠ some PSection.summary ∧
      (processLine st line).summary_lines = st.summary_lines := by
  rw [processLine]
  split
  · exact ⟨by simp, rfl⟩
  · split
    · next hc => exact absurd hc (by simp [h])
    · split
      · exact ⟨by simp, rfl⟩
      · split
        · next hc => exact absurd hc.1 hs
        · split
          · split <;> exact ⟨hs, rfl⟩
          · exact ⟨hs, rfl⟩

theorem foldl_title (lines : List Str) :
    ∀ st : PState,
      (∀ line ∈ lines, (chs ("TITLE:")).isPrefixOf (upper (strip line)) = false) →
      (lines.foldl processLine st).title = st.title := by
  induction lines with
  | nil => intro st _; rfl
  | cons l rest ih =>
    intro st h
    rw [List.foldl_cons, ih _ fun x hx => h x (List.mem_cons_of_mem _ hx),
      processLine_title _ _ (h l (List.mem_cons_self _ _))]

theorem foldl_no_summary (lines : List Str) :
    ∀ st : PState,
      (∀ line ∈ lines, (chs ("SUMMARY:")).isPrefixOf (upper (strip line)) = false) →
      st.sect ≠ some PSection.summary →
      (lines.foldl processLine st).summary_lines = st.summary_lines := by
  induction lines with
  | nil => intro st _ _; rfl
  | cons l rest ih =>
    intro st h hs
    obtain ⟨h1, h2⟩ := processLine_no_summary st l (h l (List.mem_cons_self _ _)) hs
    rw [List.foldl_cons, ih _ (fun x hx => h x (List.mem_cons_of_mem _ hx)) h1, h2]

theorem processLine_items (st : PState) (l : Str) (item : ActionItem)
    (h : item ∈ (processLine st l).action_items) :
    item ∈ st.action_items ∨ parseAction (strip l) = some item := by
  rw [processLine] at h
  split at h
  · exact Or.inl h
  split at h
  · exact Or.inl h
  split at h
  · exact Or.inl h
  split at h
  · exact Or.inl h
  split at h
  · split at h
    · next it hit =>
      have h3 : item ∈ st.action_items ++ [it] := h
      rcases List.mem_append.mp h3 with h1 | h1
      · exact Or.inl h1
      · rw [List.mem_singleton] at h1
        exact Or.inr (by rw [hit, h1])
    · exact Or.inl h
  · exact Or.inl h

theorem foldl_items (lines : List Str) :
    ∀ (st : PState) (item : ActionItem),
      item ∈ (lines.foldl processLine st).action_items →
      item ∈ st.action_items ∨ ∃ ls, parseAction ls = some item := by
  induction lines with
  | nil => intro st item h; exact Or.inl h
  | cons l rest ih =>
    intro st item h
    rw [List.foldl_cons] at h
    rcases ih _ _ h with hmem | hex
    · rcases processLine_items st l item hmem with h1 | h1
      · exact Or.inl h1
      · exact Or.inr ⟨strip l, h1⟩
    · exact Or.inr hex

theorem task_ne_nil_of_mem (content : Str) (item : ActionItem)
    (h : item ∈ (parseModelContent content).action_items) : item.task ≠ [] := by
  have h2 : item ∈ ((splitOnChar '\n' content).foldl processLine initState).action_items := h
  rcases foldl_items _ _ _ h2 with h0 | ⟨ls, hls⟩
  · exact absurd h0 (by simp [initState])
  · exact parseAction_task_ne _ _ hls

theorem splitOnChar_getD_zero (sep : Char) (s : Str) :
    (splitOnChar sep s).getD 0 [] = s.takeWhile (fun c => ! (c == sep)) := by
  rw [splitOnChar_unfold]
  rfl

theorem splitOnChar_getD_one (sep : Char) (s : Str) (d : Char) (rest : Str)
    (h : s.dropWhile (fun c => ! (c == sep)) = d :: rest) :
    (splitOnChar sep s).getD 1 []
      = rest.takeWhile (fun c => ! (c == sep)) := by
  rw [splitOnChar_unfold, h]
  show (splitOnChar sep rest).getD 0 [] = _
  exact splitOnChar_getD_zero sep rest

/-! ### Lemmas about the permission probe -/

theorem probeLoop_found (env : ProbeEnv) :
    ∀ l : List Str, (probeLoop env l).found = l.find? env.canCreate := by
  intro l
  induction l with
  | nil => rfl
  | cons p rest ih =>
    by_cases h : env.canCreate p = true
    · simp [probeLoop, h, List.find?_cons_of_pos]
    · have hb : env.canCreate p = false := by
        cases hcb : env.canCreate p with
        | false => rfl
        | true => exact absurd hcb h
      simp [probeLoop, hb, List.find?_cons_of_neg, ih]

theorem probeLoop_attempts (env : ProbeEnv) :
    ∀ l : List Str,
      (probeLoop env l).createAttempts =
        l.takeWhile (fun p => ! env.canCreate p) ++
          (match l.find? env.canCreate with
           | some p => [p]
           | none => []) := by
  intro l
  induction l with
  | nil => rfl
  | cons p rest ih =>
    by_cases h : env.canCreate p = true
    · simp [probeLoop, h, List.find?_cons_of_pos, List.takeWhile_cons]
    · have hb : env.canCreate p = false := by
        cases hcb : env.canCreate p with
        | false => rfl
        | true => exact absurd hcb h
      simp [probeLoop, hb, List.find?_cons_of_neg, List.takeWhile_cons, ih]

theorem probeLoop_attempts_length (env : ProbeEnv) :
    ∀ l : List Str, (probeLoop env l).createAttempts.length ≤ l.length := by
  intro l
  induction l with
  | nil => simp [probeLoop]
  | cons p rest ih =>
    by_cases h : env.canCreate p = true
    · have h2 : (probeLoop env (p :: rest)).createAttempts = [p] := by
        rw [probeLoop, if_pos h]
      rw [h2, List.length_cons]
      simp
    · have h2 : (probeLoop env (p :: rest)).createAttempts
          = p :: (probeLoop env rest).createAttempts := by
        rw [probeLoop, if_neg h]
      rw [h2, List.length_cons, List.length_cons]
      omega

theorem probeLoop_deletes (env : ProbeEnv) :
    ∀ l : List Str,
      (probeLoop env l).deleteCalls =
        (match (probeLoop env l).found with
         | some p => [env.createdId p]
         | none => []) := by
  intro l
  induction l with
  | nil => rfl
  | cons p rest ih =>
    by_cases h : env.canCreate p = true
    · simp [probeLoop, h]
    · have hb : env.canCreate p = false := by
        cases hcb : env.canCreate p with
        | false => rfl
        | true => exact absurd hcb h
      simp [probeLoop, hb, ih]

theorem probeLoop_delete_irrelevant (env : ProbeEnv) (d : Str → Bool) :
    ∀ l : List Str, probeLoop { env with deleteOk := d } l = probeLoop env l := by
  intro l
  induction l with
  | nil => rfl
  | cons p rest ih => simp [probeLoop, ih]

/-! ### Lemmas about the engineer-page update -/

theorem processEngineer_skip (env : ConfEnv) (mt name pid : Str)
    (hcond : (env.extract name).1 ≠ 200 ∨ hasSub (chs ("NONE")) (env.extract name).2 = true) :
    processEngineer env mt (name, pid) = [ConfOp.extractCall name] := by
  have hb : ((env.extract name).1 != 200 || hasSub (chs ("NONE")) (env.extract name).2) = true := by
    rcases hcond with h | h
    · simp [bne_iff_ne, h]
    · simp [h]
  rw [processEngineer, if_pos hb]

theorem update_pages_eq (env : ConfEnv) (mt : Str) (h : env.apiKey = true) :
    update_engineer_pages env mt
      = (ENGINEER_PAGES.map (processEngineer env mt)).flatten := by
  rw [update_engineer_pages, if_neg (by decide), if_neg (by simp [h])]

/-! ### Claim theorems -/

/-- C1, counterexample: the claim says only a leading numbering/bullet
prefix is removed and the rest of the task text is kept intact; but on the
action line `"1) Fix bug. Then test"` the code splits at the first `". "`
occurring anywhere, so the parsed task is `"Then test"`, not the
`"Fix bug. Then test"` the claim demands. -/
theorem C1_counterexample :
    (parseModelContent (chs ("ACTION ITEMS:\n1) Fix bug. Then test"))).action_items
      = [⟨chs ("Then test"), none⟩]
    ∧ chs ("Then test") ≠ chs ("Fix bug. Then test") := by decide

/-- C1, amended: a line is a new action item only if its stripped form
starts with a digit or a dash, and de-bulleting removes everything up to and
including the first occurrence of `". "` anywhere in the line when present
(else the first `") "`), then strips leading `'-'`/`' '` and `'*'`/`' '`
characters and surrounding whitespace — not merely a leading prefix. -/
theorem C1_amended
    (ls0 ls1 a1 b1 ls2 a2 b2 ls3 : Str)
    (h0 : (parseAction ls0).isSome = true)
    (hd1 : findSplit (chs (". ")) ls1 = some (a1, b1))
    (hs1 : startsDigitOrDash ls1 = true)
    (hm1 : hasSub (chs ("| ASSIGNEE:"))
      (strip (lstripSet (chs ("* ")) (lstripSet (chs ("- ")) b1))) = false)
    (hm1' : hasSub (chs ("|ASSIGNEE:"))
      (strip (lstripSet (chs ("* ")) (lstripSet (chs ("- ")) b1))) = false)
    (hne1 : strip (lstripSet (chs ("* ")) (lstripSet (chs ("- ")) b1)) ≠ [])
    (hno2 : hasSub (chs (". ")) ls2 = false)
    (hd2 : findSplit (chs (") ")) ls2 = some (a2, b2))
    (hs2 : startsDigitOrDash ls2 = true)
    (hm2 : hasSub (chs ("| ASSIGNEE:"))
      (strip (lstripSet (chs ("* ")) (lstripSet (chs ("- ")) b2))) = false)
    (hm2' : hasSub (chs ("|ASSIGNEE:"))
      (strip (lstripSet (chs ("* ")) (lstripSet (chs ("- ")) b2))) = false)
    (hne2 : strip (lstripSet (chs ("* ")) (lstripSet (chs ("- ")) b2)) ≠ [])
    (hno3 : hasSub (chs (". ")) ls3 = false)
    (hno3' : hasSub (chs (") ")) ls3 = false)
    (hs3 : startsDigitOrDash ls3 = true)
    (hm3 : hasSub (chs ("| ASSIGNEE:"))
      (strip (lstripSet (chs ("* ")) (lstripSet (chs ("- ")) ls3))) = false)
    (hm3' : hasSub (chs ("|ASSIGNEE:"))
      (strip (lstripSet (chs ("* ")) (lstripSet (chs ("- ")) ls3))) = false)
    (hne3 : strip (lstripSet (chs ("* ")) (lstripSet (chs ("- ")) ls3)) ≠ []) :
    startsDigitOrDash ls0 = true
    ∧ ls1 = a1 ++ chs (". ") ++ b1
    ∧ parseAction ls1
        = some ⟨strip (lstripSet (chs ("* ")) (lstripSet (chs ("- ")) b1)), none⟩
    ∧ ls2 = a2 ++ chs (") ") ++ b2
    ∧ parseAction ls2
        = some ⟨strip (lstripSet (chs ("* ")) (lstripSet (chs ("- ")) b2)), none⟩
    ∧ parseAction ls3
        = some ⟨strip (lstripSet (chs ("* ")) (lstripSet (chs ("- ")) ls3)), none⟩ := by
  have hdb1 : debullet ls1 = strip (lstripSet (chs ("* ")) (lstripSet (chs ("- ")) b1)) := by
    rw [debullet, denumber_of_dot ls1 a1 b1 hd1]
  have hdb2 : debullet ls2 = strip (lstripSet (chs ("* ")) (lstripSet (chs ("- ")) b2)) := by
    rw [debullet, denumber_of_paren ls2 a2 b2 hno2 hd2]
  have hdb3 : debullet ls3 = strip (lstripSet (chs ("* ")) (lstripSet (chs ("- ")) ls3)) := by
    rw [debullet, denumber_of_none ls3 hno3 hno3']
  have hp1 : parseAction ls1 = some ⟨debullet ls1, none⟩ :=
    parseAction_no_marker ls1 hs1 (by rw [hdb1]; exact hm1)
      (by rw [hdb1]; exact hm1') (by rw [hdb1]; exact hne1)
  have hp2 : parseAction ls2 = some ⟨debullet ls2, none⟩ :=
    parseAction_no_marker ls2 hs2 (by rw [hdb2]; exact hm2)
      (by rw [hdb2]; exact hm2') (by rw [hdb2]; exact hne2)
  have hp3 : parseAction ls3 = some ⟨debullet ls3, none⟩ :=
    parseAction_no_marker ls3 hs3 (by rw [hdb3]; exact hm3)
      (by rw [hdb3]; exact hm3') (by rw [hdb3]; exact hne3)
  refine ⟨parseAction_isSome_start ls0 h0, findSplit_sound _ _ _ _ hd1, ?_,
    findSplit_sound _ _ _ _ hd2, ?_, ?_⟩
  · rw [hp1, hdb1]
  · rw [hp2, hdb2]
  · rw [hp3, hdb3]

/-- C1, witness for the amended theorem at concrete inputs. -/
theorem C1_amended_witness :
    parseAction (chs ("1) Fix bug. Then test")) = some ⟨chs ("Then test"), none⟩ := by
  have h := C1_amended (chs ("- x")) (chs ("1) Fix bug. Then test"))
    (chs ("1) Fix bug")) (chs ("Then test"))
    (chs ("2) Review PR")) (chs ("2")) (chs ("Review PR")) (chs ("- Update docs"))
    (by decide) (by decide) (by decide) (by decide) (by decide) (by decide)
    (by decide) (by decide) (by decide) (by decide) (by decide) (by decide)
    (by decide) (by decide) (by decide) (by decide) (by decide) (by decide)
  exact h.2.2.1.trans (by decide)

/-- C2: the action line `"2) Fix the retry bug | ASSIGNEE: Maya"` parses to
task `"Fix the retry bug"` with assignee `"Maya"`; and every action line
lacking both spellings of the assignee marker parses to the de-bulleted
line as task with a null assignee. -/
theorem C2_marker_handling (ls : Str)
    (hs : startsDigitOrDash ls = true)
    (h1 : hasSub (chs ("| ASSIGNEE:")) ls = false)
    (h2 : hasSub (chs ("|ASSIGNEE:")) ls = false)
    (hne : debullet ls ≠ []) :
    (parseModelContent (chs ("ACTION ITEMS:\n2) Fix the retry bug | ASSIGNEE: Maya"))).action_items
      = [⟨chs ("Fix the retry bug"), some (chs ("Maya"))⟩]
    ∧ parseAction ls = some ⟨debullet ls, none⟩ := by
  obtain ⟨u, v, huv⟩ := debullet_decomp ls
  exact ⟨by decide,
    parseAction_no_marker ls hs (hasSub_false_of_within _ _ _ _ _ h1 huv)
      (hasSub_false_of_within _ _ _ _ _ h2 huv) hne⟩

/-- C2, witness at a concrete marker-free action line. -/
theorem C2_witness :
    (parseModelContent (chs ("ACTION ITEMS:\n2) Fix the retry bug | ASSIGNEE: Maya"))).action_items
      = [⟨chs ("Fix the retry bug"), some (chs ("Maya"))⟩]
    ∧ parseAction (chs ("3. Update docs")) = some ⟨chs ("Update docs"), none⟩ := by
  have h := C2_marker_handling (chs ("3. Update docs"))
    (by decide) (by decide) (by decide) (by decide)
  exact ⟨h.1, h.2.trans (by decide)⟩

/-- C3: when no line of the completion is a `TITLE:` header the returned
title is the fixed placeholder, and when no line is a `SUMMARY:` header the
returned summary is the full raw completion text; the parser is a total
function, so parsing never aborts on malformed model output. -/
theorem C3_defaults (content : Str) :
    ((∀ line ∈ splitOnChar '\n' content,
        (chs ("TITLE:")).isPrefixOf (upper (strip line)) = false) →
      (parseModelContent content).title = chs ("Meeting Summary & Transcript"))
    ∧ ((∀ line ∈ splitOnChar '\n' content,
        (chs ("SUMMARY:")).isPrefixOf (upper (strip line)) = false) →
      (parseModelContent content).summary_html = content) := by
  constructor
  · intro h
    show ((splitOnChar '\n' content).foldl processLine initState).title = _
    rw [foldl_title _ _ h]
    rfl
  · intro h
    have h2 := foldl_no_summary (splitOnChar '\n' content) initState h (by simp [initState])
    show (if ((splitOnChar '\n' content).foldl processLine initState).summary_lines = []
        then content
        else strip (joinNL ((splitOnChar '\n' content).foldl processLine initState).summary_lines))
      = content
    rw [h2]
    rfl

/-- C3, witness on a completion with neither header. -/
theorem C3_witness :
    (parseModelContent (chs ("hello world"))).title = chs ("Meeting Summary & Transcript")
    ∧ (parseModelContent (chs ("hello world"))).summary_html = chs ("hello world") :=
  ⟨(C3_defaults (chs ("hello world"))).1 (by decide),
   (C3_defaults (chs ("hello world"))).2 (by decide)⟩

/-- C4: assuming the listing endpoint honours the requested `limit = 10`
(`hlen`), the probe issues at most 10 test creates, in listed order; it
returns the first candidate that accepts a create and attempts none after
it; the only delete request is for the test page created under that
candidate; the delete outcome does not affect anything the probe does; and
a failed listing yields `none`. -/
theorem C4_probe (env env2 : ProbeEnv) (d : Str → Bool) (pages : List Str)
    (hp : env.search 10 = some pages) (hlen : pages.length ≤ 10)
    (hfail : env2.search 10 = none) :
    (find_valid_parent_pages env).createAttempts.length ≤ 10
    ∧ (find_valid_parent_pages env).found = pages.find? env.canCreate
    ∧ (find_valid_parent_pages env).createAttempts
        = pages.takeWhile (fun p => ! env.canCreate p)
          ++ (match pages.find? env.canCreate with
              | some p => [p]
              | none => [])
    ∧ (find_valid_parent_pages env).deleteCalls
        = (match (find_valid_parent_pages env).found with
           | some p => [env.createdId p]
           | none => [])
    ∧ find_valid_parent_pages { env with deleteOk := d } = find_valid_parent_pages env
    ∧ (find_valid_parent_pages env2).found = none := by
  have he : find_valid_parent_pages env = probeLoop env pages := by
    rw [find_valid_parent_pages, hp]
  have he2 : find_valid_parent_pages { env with deleteOk := d }
      = probeLoop { env with deleteOk := d } pages := by
    show (match env.search 10 with
          | none => (⟨none, [], []⟩ : ProbeOutcome)
          | some pages => probeLoop { env with deleteOk := d } pages)
        = probeLoop { env with deleteOk := d } pages
    rw [hp]
  refine ⟨?_, ?_, ?_, ?_, ?_, ?_⟩
  · rw [he]
    exact le_trans (probeLoop_attempts_length env pages) hlen
  · rw [he, probeLoop_found]
  · rw [he, probeLoop_attempts]
  · rw [he, probeLoop_deletes]
  · rw [he, he2, probeLoop_delete_irrelevant]
  · rw [find_valid_parent_pages, hfail]

/-- C4, witness: three candidates of which the second accepts. -/
theorem C4_witness :
    (find_valid_parent_pages ⟨fun _ => some [chs ("11"), chs ("22"), chs ("33")],
        fun p => p == chs ("22"), fun p => chs ("9") ++ p, fun _ => false⟩).found
      = some (chs ("22"))
    ∧ (find_valid_parent_pages ⟨fun _ => some [chs ("11"), chs ("22"), chs ("33")],
        fun p => p == chs ("22"), fun p => chs ("9") ++ p, fun _ => false⟩).createAttempts
      = [chs ("11"), chs ("22")]
    ∧ (find_valid_parent_pages ⟨fun _ => some [chs ("11"), chs ("22"), chs ("33")],
        fun p => p == chs ("22"), fun p => chs ("9") ++ p, fun _ => false⟩).deleteCalls
      = [chs ("922")]
    ∧ (find_valid_parent_pages ⟨fun _ => none, fun _ => false, fun p => p, fun _ => false⟩).found
      = none := by
  have h := C4_probe ⟨fun _ => some [chs ("11"), chs ("22"), chs ("33")],
      fun p => p == chs ("22"), fun p => chs ("9") ++ p, fun _ => false⟩
    ⟨fun _ => none, fun _ => false, fun p => p, fun _ => false⟩
    (fun _ => true) [chs ("11"), chs ("22"), chs ("33")] rfl (by decide) rfl
  exact ⟨h.2.1.trans (by decide), h.2.2.1.trans (by decide),
    h.2.2.2.1.trans (by decide), h.2.2.2.2.2⟩

/-- C5: the ticket loop submits exactly one creation request per action
item, in record order, whatever each user search or issue creation returns
(so a failure at item *i* cannot prevent attempting item *i+1*); and an
assignee whose user search fails or matches nobody yields an unassigned
request rather than a failed item. -/
theorem C5_independent_items (env : JiraEnv) (project title link : Str)
    (items : List ActionItem) (item : ActionItem) (n : Str)
    (h1 : item.assignee = some n)
    (h2 : env.userSearch n = none ∨ env.userSearch n = some []) :
    (jiraLoop env project title link items).2
      = items.map (ticketRequest env project title link)
    ∧ (ticketRequest env project title link item).assignee = none := by
  constructor
  · induction items with
    | nil => rfl
    | cons it rest ih =>
      show (create_jira_ticket env (ticket_summary it.task)
            (ticket_description title it.task link) project it.assignee).1
          :: (jiraLoop env project title link rest).2
        = (it :: rest).map (ticketRequest env project title link)
      rw [ih]
      rfl
  · show (match item.assignee with
        | some m => get_jira_user_by_name env m
        | none => none) = none
    rw [h1]
    show get_jira_user_by_name env n = none
    rcases h2 with h | h <;> simp [get_jira_user_by_name, h]

/-- C5, witness: two items, the first with an unresolvable assignee, in an
environment where every issue creation fails. -/
theorem C5_witness :
    (jiraLoop ⟨fun _ => some [], fun _ => none⟩ (chs ("DUB")) (chs ("T")) (chs ("L"))
        [⟨chs ("A"), some (chs ("Bob"))⟩, ⟨chs ("B"), none⟩]).2
      = [⟨chs ("A"), some (chs ("Bob"))⟩, ⟨chs ("B"), none⟩].map
          (ticketRequest ⟨fun _ => some [], fun _ => none⟩ (chs ("DUB")) (chs ("T")) (chs ("L")))
    ∧ (ticketRequest ⟨fun _ => some [], fun _ => none⟩ (chs ("DUB")) (chs ("T")) (chs ("L"))
        ⟨chs ("A"), some (chs ("Bob"))⟩).assignee = none :=
  C5_independent_items ⟨fun _ => some [], fun _ => none⟩ (chs ("DUB")) (chs ("T")) (chs ("L"))
    [⟨chs ("A"), some (chs ("Bob"))⟩, ⟨chs ("B"), none⟩] ⟨chs ("A"), some (chs ("Bob"))⟩
    (chs ("Bob")) rfl (Or.inr rfl)

/-- C6: every page update the engineer-page loop submits carries a body
equal to the body just read with the new dated section (meeting title,
date, extracted contribution) appended at the end, and a version number
equal to the version just read plus exactly one. -/
theorem C6_append_update (env : ConfEnv) (mt pid body t : Str) (ver : Nat)
    (h : ConfOp.putOp pid body ver t ∈ update_engineer_pages env mt) :
    ∃ name page, (name, pid) ∈ ENGINEER_PAGES
      ∧ env.readPage pid = some page
      ∧ body = page.body ++ (chs ("\n<h3>") ++ mt ++ chs (" - ") ++ env.date
          ++ chs ("</h3>\n") ++ (env.extract name).2 ++ chs ("\n"))
      ∧ ver = page.version + 1 := by
  rw [update_engineer_pages] at h
  split at h
  · exact absurd h (by simp)
  split at h
  · exact absurd h (by simp)
  rw [List.mem_flatten] at h
  obtain ⟨l, hl, hmem⟩ := h
  rw [List.mem_map] at hl
  obtain ⟨pair, hpair, hfl⟩ := hl
  obtain ⟨name, pid'⟩ := pair
  rw [← hfl] at hmem
  rw [processEngineer] at hmem
  split at hmem
  · simp at hmem
  · split at hmem
    · simp at hmem
    · next page heq =>
      simp only [List.mem_cons, List.mem_singleton, List.not_mem_nil, or_false] at hmem
      rcases hmem with h1 | h1 | h1
      · exact absurd h1 (by simp)
      · exact absurd h1 (by simp)
      · rw [ConfOp.putOp.injEq] at h1
        obtain ⟨e1, e2, e3, e4⟩ := h1
        subst e1
        exact ⟨name, page, hpair, heq, e2, e3⟩

/-- C6, witness: the update written for GUY's page in the demonstration
environment appends the dated section to `"OLD"` and submits version 4. -/
theorem C6_witness :
    ∃ name page, (name, chs ("491638")) ∈ ENGINEER_PAGES
      ∧ demoConfEnv.readPage (chs ("491638")) = some page
      ∧ chs ("OLD\n<h3>Standup - Oct 12</h3>\n<li>Did X</li>\n")
          = page.body ++ (chs ("\n<h3>") ++ chs ("Standup") ++ chs (" - ") ++ demoConfEnv.date
              ++ chs ("</h3>\n") ++ (demoConfEnv.extract name).2 ++ chs ("\n"))
      ∧ 4 = page.version + 1 :=
  C6_append_update demoConfEnv (chs ("Standup")) (chs ("491638"))
    (chs ("OLD\n<h3>Standup - Oct 12</h3>\n<li>Did X</li>\n")) (chs ("Guy Log")) 4 (by decide)

/-- C7, counterexample: the claim says a person whose extraction yields the
`"NONE"` sentinel is skipped *after* the document read (read happens, then
no write); but in an environment whose extractions all answer `"NONE"` the
trace contains only the four extraction calls — in particular no read of
MAYA's page `557203` ever happens. -/
theorem C7_counterexample :
    update_engineer_pages sentinelConfEnv (chs ("Standup"))
      = [ConfOp.extractCall (chs ("GUY")), ConfOp.extractCall (chs ("EYAL")),
         ConfOp.extractCall (chs ("ARVIN")), ConfOp.extractCall (chs ("MAYA"))]
    ∧ ConfOp.readOp (chs ("557203")) ∉ update_engineer_pages sentinelConfEnv (chs ("Standup"))
    ∧ hasSub (chs ("NONE")) (sentinelConfEnv.extract (chs ("MAYA"))).2 = true := by decide

/-- C7, amended: with no summarization capability configured every person is
skipped entirely (no read, no write); and a person whose extraction yields
the `"NONE"` sentinel is skipped *before* the document read — neither the
read nor the write happens for that person. -/
theorem C7_amended (env1 env2 : ConfEnv) (mt1 mt2 name pid : Str)
    (h1 : env1.apiKey = false)
    (hmem : (name, pid) ∈ ENGINEER_PAGES)
    (hcond : (env2.extract name).1 ≠ 200
      ∨ hasSub (chs ("NONE")) (env2.extract name).2 = true) :
    update_engineer_pages env1 mt1 = []
    ∧ processEngineer env2 mt2 (name, pid) = [ConfOp.extractCall name] := by
  refine ⟨?_, processEngineer_skip env2 mt2 name pid hcond⟩
  rw [update_engineer_pages, if_neg (by decide), if_pos (by simp [h1])]

/-- C7, witness: a key-less environment produces no operations at all, and
MAYA with a sentinel extraction produces only the extraction call. -/
theorem C7_witness :
    update_engineer_pages ⟨false, chs ("Oct 12"), fun _ => (200, chs ("x")), fun _ => none⟩
        (chs ("T")) = []
    ∧ processEngineer sentinelConfEnv (chs ("T")) (chs ("MAYA"), chs ("557203"))
        = [ConfOp.extractCall (chs ("MAYA"))] :=
  C7_amended ⟨false, chs ("Oct 12"), fun _ => (200, chs ("x")), fun _ => none⟩ sentinelConfEnv
    (chs ("T")) (chs ("T")) (chs ("MAYA")) (chs ("557203")) rfl (by decide) (Or.inr (by decide))

/-- C8, counterexample: the claim says every `ActionItem`'s task is at most
100 characters, longer text being truncated; but a 110-character action
line parses to an item whose task still has 110 characters — only the
ticket summary is truncated later, never the task itself. -/
theorem C8_counterexample :
    ((parseModelContent (chs ("ACTION ITEMS:\n1. ") ++ List.replicate 110 'a')).action_items.map
        (fun item => item.task.length)) = [110]
    ∧ ¬ (110 ≤ 100) := by decide

/-- C8, amended: every parsed task is non-empty; the task itself is not
truncated, but the summary submitted in the work-item creation request
equals the task when its length is at most 100 and otherwise equals the
task's first 97 characters followed by `"..."`, so the submitted summary
never exceeds 100 characters. -/
theorem C8_amended (jenv : JiraEnv) (project title link content : Str) (item : ActionItem)
    (h : item ∈ (parseModelContent content).action_items) :
    item.task ≠ []
    ∧ (ticketRequest jenv project title link item).summary
        = (if item.task.length ≤ 100 then item.task else item.task.take 97 ++ chs ("..."))
    ∧ (ticketRequest jenv project title link item).summary.length ≤ 100 := by
  have hsum : (ticketRequest jenv project title link item).summary
      = ticket_summary item.task := rfl
  refine ⟨task_ne_nil_of_mem content item h, ?_, ?_⟩
  · rw [hsum, ticket_summary]
    by_cases hlen : item.task.length > 100
    · rw [if_pos hlen, if_neg (by omega)]
    · rw [if_neg hlen, if_pos (by omega)]
  · rw [hsum, ticket_summary]
    by_cases hlen : item.task.length > 100
    · rw [if_pos hlen, List.length_append, List.length_take]
      have h3 : (chs ("...")).length = 3 := rfl
      rw [h3]
      omega
    · rw [if_neg hlen]
      omega

/-- C8, witness at the parsed item of the C2 example line. -/
theorem C8_witness :
    (⟨chs ("Fix the retry bug"), some (chs ("Maya"))⟩ : ActionItem).task ≠ []
    ∧ (ticketRequest ⟨fun _ => some [], fun _ => none⟩ (chs ("DUB")) (chs ("T")) (chs ("L"))
        ⟨chs ("Fix the retry bug"), some (chs ("Maya"))⟩).summary = chs ("Fix the retry bug") := by
  have h := C8_amended ⟨fun _ => some [], fun _ => none⟩ (chs ("DUB")) (chs ("T")) (chs ("L"))
    (chs ("ACTION ITEMS:\n2) Fix the retry bug | ASSIGNEE: Maya"))
    ⟨chs ("Fix the retry bug"), some (chs ("Maya"))⟩ (by decide)
  exact ⟨h.1, h.2.1.trans (by decide)⟩

theorem bar_decomp_of_marker (dbl mk mtail : Str) (hmk : mk = '|' :: mtail)
    (h : hasSub mk dbl = true) : ∃ u w, dbl = u ++ '|' :: w := by
  unfold hasSub at h
  cases hf : findSplit mk dbl with
  | none => rw [hf] at h; simp at h
  | some pq =>
    obtain ⟨pre, post⟩ := pq
    have hd := findSplit_sound _ _ _ _ hf
    refine ⟨pre, mtail ++ post, ?_⟩
    rw [hd, hmk]
    simp [List.cons_append, List.append_assoc]

/-- C9: for an action line whose de-bulleted text contains either assignee
marker, the parsed task is the (trimmed) text before the *first* `'|'`
character, and the assignee comes only from the segment between the first
and second `'|'`: when that segment does not start with `ASSIGNEE:`
(case-insensitive) the assignee is null and everything after the first
`'|'` is silently dropped from the item. -/
theorem C9_pipe_segments (ls beforeBar seg : Str)
    (hs : startsDigitOrDash ls = true)
    (hm : (hasSub (chs ("| ASSIGNEE:")) (debullet ls)
          || hasSub (chs ("|ASSIGNEE:")) (debullet ls)) = true)
    (hb : beforeBar = strip ((debullet ls).takeWhile (fun c => ! (c == '|'))))
    (hseg : seg = strip ((((debullet ls).dropWhile (fun c => ! (c == '|'))).drop 1).takeWhile
        (fun c => ! (c == '|'))))
    (hne : beforeBar ≠ []) :
    parseAction ls = some
      ⟨beforeBar,
        if (chs ("ASSIGNEE:")).isPrefixOf (upper seg) then some (strip (seg.drop 9))
        else none⟩ := by
  subst hb
  subst hseg
  have hbar : ∃ u w, debullet ls = u ++ '|' :: w := by
    rcases (Bool.or_eq_true _ _).mp hm with h | h
    · exact bar_decomp_of_marker (debullet ls) _ (chs (" ASSIGNEE:")) (by decide) h
    · exact bar_decomp_of_marker (debullet ls) _ (chs ("ASSIGNEE:")) (by decide) h
  obtain ⟨u, w, huw⟩ := hbar
  have hdw_ne : (debullet ls).dropWhile (fun c => ! (c == '|')) ≠ [] := by
    rw [huw]
    exact dropWhile_ne_nil _ u '|' w (by decide)
  cases hdw : (debullet ls).dropWhile (fun c => ! (c == '|')) with
  | nil => exact absurd hdw hdw_ne
  | cons dh rest =>
    have hp0 := splitOnChar_getD_zero '|' (debullet ls)
    have hp1 := splitOnChar_getD_one '|' (debullet ls) dh rest hdw
    have hsa : splitAssignee (debullet ls)
        = (strip ((debullet ls).takeWhile (fun c => ! (c == '|'))),
           if (chs ("ASSIGNEE:")).isPrefixOf
               (upper (strip (rest.takeWhile (fun c => ! (c == '|')))))
           then some (strip ((strip (rest.takeWhile (fun c => ! (c == '|')))).drop 9))
           else none) := by
      rw [splitAssignee, if_pos hm]
      show (if (chs ("ASSIGNEE:")).isPrefixOf
            (upper (strip ((splitOnChar '|' (debullet ls)).getD 1 [])))
          then (strip ((splitOnChar '|' (debullet ls)).getD 0 []),
                some (strip ((strip ((splitOnChar '|' (debullet ls)).getD 1 [])).drop 9)))
          else (strip ((splitOnChar '|' (debullet ls)).getD 0 []), none))
        = _
      rw [hp0, hp1]
      by_cases hC : (chs ("ASSIGNEE:")).isPrefixOf
          (upper (strip (rest.takeWhile (fun c => ! (c == '|'))))) = true
      · rw [if_pos hC, if_pos hC]
      · rw [if_neg hC, if_neg hC]
    simp only [List.drop_one, List.tail_cons]
    rw [parseAction, if_pos hs]
    show (if (splitAssignee (debullet ls)).1 = [] then none
        else some (⟨(splitAssignee (debullet ls)).1,
          (splitAssignee (debullet ls)).2⟩ : ActionItem))
      = _
    rw [hsa]
    show (if strip ((debullet ls).takeWhile (fun c => ! (c == '|'))) = [] then none
        else some (⟨strip ((debullet ls).takeWhile (fun c => ! (c == '|'))),
          if (chs ("ASSIGNEE:")).isPrefixOf
              (upper (strip (rest.takeWhile (fun c => ! (c == '|')))))
          then some (strip ((strip (rest.takeWhile (fun c => ! (c == '|')))).drop 9))
          else none⟩ : ActionItem))
      = _
    rw [if_neg hne]

/-- C9, witness: a second `'|'` segment that is not an assignee label is
silently dropped and the assignee stays null. -/
theorem C9_witness :
    parseAction (chs ("1. Task | note | ASSIGNEE: Bob")) = some ⟨chs ("Task"), none⟩ := by
  have h := C9_pipe_segments (chs ("1. Task | note | ASSIGNEE: Bob"))
    (strip ((debullet (chs ("1. Task | note | ASSIGNEE: Bob"))).takeWhile
      (fun c => ! (c == '|'))))
    (strip ((((debullet (chs ("1. Task | note | ASSIGNEE: Bob"))).dropWhile
      (fun c => ! (c == '|'))).drop 1).takeWhile (fun c => ! (c == '|'))))
    (by decide) (by decide) rfl rfl (by decide)
  exact h.trans (by decide)

/-- C10: a person is skipped — no page read, no write, only the extraction
call — whenever the extraction call returns a non-200 status or its text
contains `"NONE"` anywhere (even inside a longer word, alongside genuine
text); and this affects no other person: an environment differing only in
that person's extraction result treats every other person identically. -/
theorem C10_sentinel_skip (env env2 : ConfEnv) (mt name pid name2 pid2 : Str)
    (hmem : (name, pid) ∈ ENGINEER_PAGES)
    (hcond : (env.extract name).1 ≠ 200
      ∨ hasSub (chs ("NONE")) (env.extract name).2 = true)
    (hext : ∀ m, m ≠ name → env2.extract m = env.extract m)
    (hread : env2.readPage = env.readPage)
    (hdate : env2.date = env.date)
    (hmem2 : (name2, pid2) ∈ ENGINEER_PAGES)
    (hne : name2 ≠ name) :
    processEngineer env mt (name, pid) = [ConfOp.extractCall name]
    ∧ processEngineer env2 mt (name2, pid2) = processEngineer env mt (name2, pid2) := by
  refine ⟨processEngineer_skip env mt name pid hcond, ?_⟩
  rw [processEngineer, processEngineer, hext name2 hne, hread, hdate]

/-- C10, witness: MAYA's extraction contains `"NONE"` only inside the word
`"NONEXISTENT"`, yet her page is neither read nor written. -/
theorem C10_witness :
    processEngineer mixedConfEnv (chs ("T")) (chs ("MAYA"), chs ("557203"))
      = [ConfOp.extractCall (chs ("MAYA"))]
    ∧ processEngineer mixedConfEnv (chs ("T")) (chs ("GUY"), chs ("491638"))
      = processEngineer mixedConfEnv (chs ("T")) (chs ("GUY"), chs ("491638")) :=
  C10_sentinel_skip mixedConfEnv mixedConfEnv (chs ("T")) (chs ("MAYA")) (chs ("557203"))
    (chs ("GUY")) (chs ("491638")) (by decide) (Or.inr (by decide))
    (fun m hm => rfl) rfl rfl (by decide) (by decide)
